import Mathlib

/-!
Verification of the session-engine core of the `ted` editor backend
(`src-tauri/src/lsp.rs`, `terminal.rs`, `dap.rs`, `background_cmd.rs`).

The byte streams exchanged with endpoints are modelled as `List Nat`
(one `Nat` per byte).  `BufReader`-level read chunking is below this
abstraction: `read_line` / `read_exact` over a buffered reader are
deterministic functions of the underlying byte sequence, so the decoders
are modelled as functions of that sequence.  Rust `String` values are
modelled by their UTF-8 byte lists; `String::from_utf8_lossy` is
modelled byte-for-byte (including the replacement-character policy).
Rust's `str::trim` is modelled for single-byte (ASCII) whitespace, which
is exact on ASCII header lines; the theorems about header parsing
restrict header lines to ASCII accordingly.

Loops that consume a finite stream are written with an explicit fuel
parameter (any fuel larger than the stream length gives the loop's
behaviour; the top-level wrappers pass `length + 1`), which keeps every
definition structurally recursive and executable.
-/

namespace Ted

/-- Bytes (code points, all ASCII here) of a Rust string literal. -/
def strBytes (s : String) : List Nat := s.toList.map Char.toNat

/-- ASCII whitespace bytes: the bytes on which Rust `str::trim` trims
within the ASCII range (tab, LF, VT, FF, CR, space). -/
def isWsB (b : Nat) : Bool :=
  decide (b = 9 ∨ b = 10 ∨ b = 11 ∨ b = 12 ∨ b = 13 ∨ b = 32)

/-- Model of Rust `str::trim` restricted to ASCII whitespace. -/
def trimAscii (l : List Nat) : List Nat :=
  ((l.dropWhile isWsB).reverse.dropWhile isWsB).reverse

/-- ASCII decimal digit byte. -/
def isDigitB (b : Nat) : Bool := decide (48 ≤ b ∧ b ≤ 57)

/-- Numeric value of a big-endian list of ASCII digit bytes. -/
def digitsVal (l : List Nat) : Nat := l.foldl (fun acc b => acc * 10 + (b - 48)) 0

/-- Model of Rust `str::parse::<usize>()` on the bytes of the input:
an optional leading plus sign, then one or more ASCII digits, and the
value must fit in a 64-bit `usize`.  Everything else is a parse error
(`none`), which the reader turns into `0` via `unwrap_or(0)`. -/
def parseUsize (l : List Nat) : Option Nat :=
  let ds := if l.head? = some 43 then l.tail else l
  if ds ≠ [] ∧ ds.all isDigitB = true then
    if digitsVal ds < 2 ^ 64 then some (digitsVal ds) else none
  else none

/-- Big-endian decimal digit bytes of `n` (helper with fuel; any fuel
above `n` is enough because the value is divided by ten each step). -/
def natDecimalAux : Nat → Nat → List Nat
  | 0, _ => []
  | f + 1, n => if n = 0 then [] else natDecimalAux f (n / 10) ++ [n % 10 + 48]

/-- Bytes of the Rust `Display` decimal rendering of `n`. -/
def natDecimal (n : Nat) : List Nat :=
  if n = 0 then [48] else natDecimalAux (n + 1) n

/-- Bytes of the recognized header key, `Content-Length: ` (lsp.rs line 102). -/
def clKey : List Nat := strBytes "Content-Length: "

/-- Model of `trimmed.strip_prefix("Content-Length: ")` (lsp.rs line 102). -/
def headerValue (t : List Nat) : Option (List Nat) :=
  if clKey.isPrefixOf t then some (t.drop clKey.length) else none

/-- Does this (trimmed) header line leave the content length at zero?
Either it does not carry the recognized key, or its value parses to
zero / fails to parse (`parse().unwrap_or(0)`, lsp.rs line 103). -/
def lineSetsNoLength (t : List Nat) : Bool :=
  match headerValue t with
  | some v => (parseUsize v).getD 0 == 0
  | none => true

/-- All bytes ASCII. -/
def allAscii (l : List Nat) : Bool := l.all (fun b => decide (b < 128))

/-- Header bytes emitted by `lsp_send` for a payload of `n` bytes
(lsp.rs line 197): `Content-Length: n`, CR LF, CR LF. -/
def lspHeaderN (n : Nat) : List Nat := clKey ++ natDecimal n ++ [13, 10, 13, 10]

/-- Header written by `lsp_send` for message `m` (`m.len()` is the byte
length of the payload). -/
def lspHeader (m : List Nat) : List Nat := lspHeaderN m.length

/-- Full byte emission of `lsp_send` for message `m`: header block then
the raw payload bytes (lsp.rs lines 196-204). -/
def lspEncode (m : List Nat) : List Nat := lspHeader m ++ m

/-- Model of `BufRead::read_line` on the remaining stream: returns the
bytes up to and including the first LF (or up to end of stream if no LF
remains) together with the rest of the stream. -/
def readLine : List Nat → List Nat × List Nat
  | [] => ([], [])
  | b :: r =>
    if b = 10 then ([10], r)
    else
      let p := readLine r
      (b :: p.1, p.2)

/-- A UTF-8 continuation byte. -/
def isCont (b : Nat) : Prop := 128 ≤ b ∧ b ≤ 191

instance (b : Nat) : Decidable (isCont b) := by unfold isCont; infer_instance

/-- Lower bound of the first continuation byte for leading byte `b`
(0xE0 and 0xF0 exclude overlong encodings). -/
def cont1Lo (b : Nat) : Nat := if b = 224 then 160 else if b = 240 then 144 else 128

/-- Upper bound of the first continuation byte for leading byte `b`
(0xED excludes surrogates, 0xF4 caps at U+10FFFF). -/
def cont1Hi (b : Nat) : Nat := if b = 237 then 159 else if b = 244 then 143 else 191

/-- Valid first continuation byte after leading byte `b`. -/
def isCont1 (b c : Nat) : Prop := cont1Lo b ≤ c ∧ c ≤ cont1Hi b

instance (b c : Nat) : Decidable (isCont1 b c) := by unfold isCont1; infer_instance

/-- Total length of the UTF-8 sequence introduced by leading byte `b`,
or `0` when `b` cannot lead a sequence (continuation bytes 0x80-0xBF,
the overlong leads 0xC0-0xC1, and 0xF5-0xFF). -/
def utf8SeqLen (b : Nat) : Nat :=
  if b ≤ 127 then 1
  else if 194 ≤ b ∧ b ≤ 223 then 2
  else if 224 ≤ b ∧ b ≤ 239 then 3
  else if 240 ≤ b ∧ b ≤ 244 then 4
  else 0

/-- Number of leading bytes of `cs` forming a valid run of continuation
bytes (the first checked against the lead-dependent range, later ones
against 0x80-0xBF). -/
def countCont : List Nat → Nat
  | [] => 0
  | c :: rest => if isCont c then 1 + countCont rest else 0

/-- Number of leading bytes of `cs` that are valid continuation bytes
for a sequence led by `b`. -/
def goodConts (b : Nat) (cs : List Nat) : Nat :=
  match cs with
  | [] => 0
  | c :: rest => if isCont1 b c then 1 + countCont rest else 0

/-- UTF-8 validity of a byte list (the check performed by Rust's
`String::from_utf8` / `BufRead::read_line`), with fuel: each sequence
must have a valid leading byte followed by its full complement of
in-range continuation bytes. -/
def utf8ValidF : Nat → List Nat → Bool
  | 0, _ => false
  | _ + 1, [] => true
  | f + 1, b :: r =>
    let k := utf8SeqLen b
    if k = 0 then false
    else if min (goodConts b r) (k - 1) = k - 1 then utf8ValidF f (r.drop (k - 1))
    else false

/-- UTF-8 validity of a byte list. -/
def utf8Valid (l : List Nat) : Bool := utf8ValidF (l.length + 1) l

/-- UTF-8 bytes of U+FFFD, the replacement character. -/
def repChar : List Nat := [239, 191, 189]

/-- Model of Rust `String::from_utf8_lossy` at the byte level, with
fuel: valid sequences are copied verbatim; each maximal invalid subpart
(the lead plus its valid continuation prefix, or a lone invalid byte)
is replaced by one U+FFFD; an incomplete sequence at end of input
becomes a single U+FFFD. -/
def fromUtf8LossyF : Nat → List Nat → List Nat
  | 0, _ => []
  | _ + 1, [] => []
  | f + 1, b :: r =>
    let k := utf8SeqLen b
    if k = 0 then repChar ++ fromUtf8LossyF f r
    else
      let g := min (goodConts b r) (k - 1)
      if g = k - 1 then (b :: r.take g) ++ fromUtf8LossyF f (r.drop g)
      else if r.length ≤ g then repChar
      else repChar ++ fromUtf8LossyF f (r.drop g)

/-- Model of Rust `String::from_utf8_lossy` at the byte level. -/
def fromUtf8Lossy (l : List Nat) : List Nat := fromUtf8LossyF (l.length + 1) l

/-- Content-length accumulator update performed for one (trimmed)
header line: a line carrying the recognized key overwrites the
accumulator with `parse().unwrap_or(0)`; any other line leaves it
alone (lsp.rs lines 102-104). -/
def lineCl (t : List Nat) (cl : Nat) : Nat :=
  match headerValue t with
  | some v => (parseUsize v).getD 0
  | none => cl

/-- The header-reading inner loop of the stdout reader thread of
`lsp_start` (lsp.rs lines 90-105), with fuel.  Starting from
accumulator `cl` (the loop starts each outer iteration at zero), read
lines until a line trims to empty; `none` models the `return`s on
end-of-stream (`Ok(0)`) and on a read error (invalid UTF-8).  Each line
carrying the recognized key overwrites the accumulator with
`parse().unwrap_or(0)`. -/
def lpReadHeadersF : Nat → List Nat → Nat → Option (Nat × List Nat)
  | 0, _, _ => none
  | _ + 1, [], _ => none
  | f + 1, b :: r, cl =>
    let p := readLine (b :: r)
    if utf8Valid p.1 = true then
      let t := trimAscii p.1
      if t = [] then some (cl, p.2)
      else lpReadHeadersF f p.2 (lineCl t cl)
    else none

/-- The outer decode loop of the stdout reader thread of `lsp_start`
(lsp.rs lines 89-124), with fuel: read a header block; on zero length
skip the unit (`continue`); on a truncated body (`read_exact` fails,
i.e. fewer than `cl` bytes remain) `return`; otherwise emit the lossy
string of the body as one frame and loop. -/
def lpDecodeF : Nat → List Nat → List (List Nat)
  | 0, _ => []
  | f + 1, s =>
    match lpReadHeadersF (s.length + 1) s 0 with
    | none => []
    | some (cl, rest) =>
      if cl = 0 then lpDecodeF f rest
      else if rest.length < cl then []
      else fromUtf8Lossy (rest.take cl) :: lpDecodeF f (rest.drop cl)

/-- The LengthPrefixed decoder applied to a whole stream: the sequence
of frames the stdout reader thread emits. -/
def lpDecode (s : List Nat) : List (List Nat) := lpDecodeF (s.length + 1) s

/-- Newline stripping performed by `BufRead::lines`: a trailing LF is
removed, and then a trailing CR if one precedes it.  A line with no
trailing LF (final partial line) is left untouched. -/
def stripNL (l : List Nat) : List Nat :=
  if l.getLast? = some 10 then
    let l2 := l.dropLast
    if l2.getLast? = some 13 then l2.dropLast else l2
  else l

/-- Strip one trailing CR from the content of a newline-terminated line
(what `stripNL` does after removing the newline itself). -/
def stripCRContent (l : List Nat) : List Nat :=
  if l.getLast? = some 13 then l.dropLast else l

/-- The stderr reader thread of `lsp_start` (lsp.rs lines 130-146),
with fuel: `for line in reader.lines()` emitting one frame per yielded
line, breaking on the first `Err` (invalid UTF-8) and ending at
end-of-stream. -/
def lineDecodeF : Nat → List Nat → List (List Nat)
  | 0, _ => []
  | f + 1, s =>
    match s with
    | [] => []
    | b :: r =>
      let p := readLine (b :: r)
      if utf8Valid p.1 = true then stripNL p.1 :: lineDecodeF f p.2
      else []

/-- The LineDelimited decoder applied to a whole stream. -/
def lineDecode (s : List Nat) : List (List Nat) := lineDecodeF (s.length + 1) s

/-- A newline-terminated line with content `l` (which contains no LF). -/
def mkLine (l : List Nat) : List Nat := l ++ [10]

/-- The reader loops of `spawn_terminal` (terminal.rs lines 58-68) and
`dap_connect` (dap.rs lines 41-59): each successful nonzero read is
forwarded as one frame holding the lossy string of the chunk; a
zero-length read (end of stream) or a read error stops the loop.  The
argument lists the byte chunks successive reads return, a `[]` chunk
standing for end of stream. -/
def rawReaderLoop : List (List Nat) → List (List Nat)
  | [] => []
  | c :: rest => if c = [] then [] else fromUtf8Lossy c :: rawReaderLoop rest

/-! ## Session registries

`HashMap<String, _>` behind a mutex, modelled as an association list
with HashMap lookup / insert (replace) / remove semantics. -/

/-- Registry mapping session ids to session payloads. -/
abbrev RegMap (α : Type) : Type := List (String × α)

/-- Model of `HashMap::get`. -/
def regLookup {α : Type} (m : RegMap α) (k : String) : Option α :=
  (List.find? (fun p => p.1 == k) m).map (fun p => p.2)

/-- Model of `HashMap::insert` (replaces any entry under the same key). -/
def regInsert {α : Type} (m : RegMap α) (k : String) (v : α) : RegMap α :=
  (k, v) :: List.filter (fun p => p.1 != k) m

/-- Model of `HashMap::remove`. -/
def regRemove {α : Type} (m : RegMap α) (k : String) : RegMap α :=
  List.filter (fun p => p.1 != k) m

/-- Model of `HashMap::contains_key`. -/
def containsKey {α : Type} (m : RegMap α) (k : String) : Bool :=
  (regLookup m k).isSome

/-- Registry behaviour of `lsp_start` (lsp.rs lines 45-82): a duplicate
id fails before anything is spawned; otherwise the freshly spawned
session is inserted.  The spawn-failure path (error before any
registration) is orthogonal and omitted; the boolean records whether
the spawn step is reached. -/
def lsp_start {α : Type} (m : RegMap α) (server_id : String) (session : α) :
    Except String Unit × RegMap α × Bool :=
  if containsKey m server_id then
    (.error ("Server " ++ server_id ++ " already running"), m, false)
  else (.ok (), regInsert m server_id session, true)

/-- Registry behaviour of `spawn_terminal` (terminal.rs lines 50-53):
the session is inserted with no duplicate-id check, so an existing
entry under the same id is silently replaced. -/
def spawn_terminal {α : Type} (m : RegMap α) (id : String) (session : α) :
    Except String Unit × RegMap α :=
  (.ok (), regInsert m id session)

/-- `lsp_send` (lsp.rs lines 186-206): look the session up; on a
missing id fail with the not-found error; otherwise emit the header and
the payload to the session's stdin (the second component lists the
byte chunks written, in order; the final `flush` writes no bytes). -/
def lsp_send {α : Type} (m : RegMap α) (server_id : String) (message : List Nat) :
    Except String Unit × List (List Nat) :=
  match regLookup m server_id with
  | none => (.error ("Server " ++ server_id ++ " not found"), [])
  | some _ => (.ok (), [lspHeader message, message])

/-- `write_to_terminal` (terminal.rs lines 74-86): look the session up;
on a missing id fall through and return `Ok` with nothing written;
otherwise write the data bytes. -/
def write_to_terminal {α : Type} (m : RegMap α) (id : String) (data : List Nat) :
    Except String Unit × List (List Nat) :=
  match regLookup m id with
  | none => (.ok (), [])
  | some _ => (.ok (), [data])

/-! ## Background commands (background_cmd.rs) -/

/-- A process exit status (`std::process::ExitStatus`): `code` is
`none` when the process was terminated by a signal. -/
structure ExitSt where
  code : Option Int
  deriving DecidableEq

/-- An entry of the background-command registry (`BackgroundProcess`,
background_cmd.rs lines 11-17); the child handle is modelled by its
presence. -/
structure BgProc where
  child : Option Unit
  stdoutBuf : List Nat
  stderrBuf : List Nat
  isFinished : Bool
  exitCode : Option Int
  deriving DecidableEq

/-- `CmdResult` (background_cmd.rs lines 25-31); the stdout/stderr
strings are modelled by their bytes. -/
structure CmdRes where
  status : String
  pid : Option String
  stdout : List Nat
  stderr : List Nat
  exitCode : Option Int
  deriving DecidableEq

/-- Outcome of the `tokio::select!` race in `exec_background_cmd`
(background_cmd.rs lines 117-160): either `child.wait()` resolved first
(with its result) or the timeout elapsed first. -/
inductive RaceOut
  | exited (res : Except String ExitSt)
  | timedOut

/-- Result of `child.try_wait()` in `check_background_cmd`. -/
inductive TryWaitRes
  | exited (st : ExitSt)
  | stillRunning
  | waitErr (msg : String)
  deriving DecidableEq

/-- `exec_background_cmd` (background_cmd.rs lines 33-161) after the
spawn, given the race outcome and the buffer contents at the moment the
race resolves: on exit-first, return `completed` with the snapshots and
the exit code and leave the registry alone; on timeout-first, register
the still-running session under the generated id and return `running`
with the partial snapshots and no exit code. -/
def exec_background_cmd (procs : RegMap BgProc) (pid : String) (outcome : RaceOut)
    (outSnap errSnap : List Nat) : Except String CmdRes × RegMap BgProc :=
  match outcome with
  | .exited (.ok st) =>
    (.ok ⟨"completed", some pid, fromUtf8Lossy outSnap, fromUtf8Lossy errSnap, st.code⟩, procs)
  | .exited (.error e) => (.error ("Process error: " ++ e), procs)
  | .timedOut =>
    (.ok ⟨"running", some pid, fromUtf8Lossy outSnap, fromUtf8Lossy errSnap, none⟩,
      regInsert procs pid ⟨some (), outSnap, errSnap, false, none⟩)

/-- `check_background_cmd` (background_cmd.rs lines 163-212), given the
`try_wait` oracle: unknown id errors; a finished entry returns its
stored result; otherwise, with a child handle present, `try_wait`
decides between completing the entry, reporting `running`, or an error;
with no child handle the invalid-state error is returned. -/
def check_background_cmd (procs : RegMap BgProc) (pid : String) (tw : TryWaitRes) :
    Except String CmdRes × RegMap BgProc :=
  match regLookup procs pid with
  | none => (.error "Process not found", procs)
  | some proc =>
    if proc.isFinished then
      (.ok ⟨"completed", some pid, fromUtf8Lossy proc.stdoutBuf, fromUtf8Lossy proc.stderrBuf,
        proc.exitCode⟩, procs)
    else
      match proc.child with
      | some _ =>
        match tw with
        | .exited st =>
          (.ok ⟨"completed", some pid, fromUtf8Lossy proc.stdoutBuf,
            fromUtf8Lossy proc.stderrBuf, st.code⟩,
           regInsert procs pid
             ⟨proc.child, proc.stdoutBuf, proc.stderrBuf, true, st.code⟩)
        | .stillRunning =>
          (.ok ⟨"running", some pid, fromUtf8Lossy proc.stdoutBuf,
            fromUtf8Lossy proc.stderrBuf, none⟩, procs)
        | .waitErr e => (.error ("Error checking process: " ++ e), procs)
      | none => (.error "Invalid process state", procs)

/-- `kill_background_cmd` (background_cmd.rs lines 214-225): remove the
entry (taking its child, which is then killed outside the lock) and
always succeed. -/
def kill_background_cmd (procs : RegMap BgProc) (pid : String) :
    Except String Unit × RegMap BgProc :=
  (.ok (), regRemove procs pid)

/-- Invariant: every registry entry holds a child handle. -/
def ChildInv (m : RegMap BgProc) : Prop :=
  ∀ p ∈ m, p.2.child.isSome = true

instance (m : RegMap BgProc) : Decidable (ChildInv m) := by
  unfold ChildInv; infer_instance

/-! ## Writer-gate interleaving model

Two tasks call `send` concurrently on the same session: each runs
`lock stdin; write the chunks; flush; unlock` (lsp.rs lines 196-204,
terminal.rs lines 81-83).  A scheduler interleaves the two tasks'
primitive steps; acquiring a held mutex blocks (the step does
nothing). -/

/-- State of one sender task: waiting to acquire the writer lock (with
its pending chunks), writing its remaining chunks while holding the
lock, or finished (lock released). -/
inductive Phase
  | idle (cs : List (List Nat))
  | writing (cs : List (List Nat))
  | done
  deriving DecidableEq

/-- Shared state: who holds the writer mutex (`false` and `true` name
the two tasks), each task's phase, and the bytes written to the
endpoint so far. -/
structure SState where
  lock : Option Bool
  phA : Phase
  phB : Phase
  out : List Nat
  deriving DecidableEq

/-- Phase of task `t`. -/
def phOf (s : SState) (t : Bool) : Phase := if t then s.phB else s.phA

/-- Replace the phase of task `t`. -/
def setPh (s : SState) (t : Bool) (p : Phase) : SState :=
  if t then ⟨s.lock, s.phA, p, s.out⟩ else ⟨s.lock, p, s.phB, s.out⟩

/-- One scheduler step of task `t`: acquire the lock if free (else
block), write the next pending chunk to the endpoint, or release the
lock when done. -/
def stepT (s : SState) (t : Bool) : SState :=
  match phOf s t with
  | .idle cs =>
    match s.lock with
    | none => let s2 := setPh s t (.writing cs); ⟨some t, s2.phA, s2.phB, s2.out⟩
    | some _ => s
  | .writing (c :: cs) =>
    let s2 := setPh s t (.writing cs); ⟨s2.lock, s2.phA, s2.phB, s2.out ++ c⟩
  | .writing [] =>
    let s2 := setPh s t .done; ⟨none, s2.phA, s2.phB, s2.out⟩
  | .done => s

/-- Run a schedule (the sequence of task choices). -/
def runSched (s : SState) (sched : List Bool) : SState := sched.foldl stepT s

/-- The chunks one `lsp_send` writes under the lock: header bytes, the
payload bytes, and the (byte-free) flush. -/
def sendChunks (m : List Nat) : List (List Nat) := [lspHeader m, m, []]

/-- Initial state: lock free, nothing written, task A about to send
message `a` and task B message `b`. -/
def initS (a b : List Nat) : SState :=
  ⟨none, .idle (sendChunks a), .idle (sendChunks b), []⟩

/-- Inductive invariant of the two-sender system: when the lock is
free, each task is untouched or completely done, and the endpoint holds
the full emissions of the finished tasks in completion order; when a
task holds the lock, the endpoint ends with that task's partial
emission and the other task has written nothing or everything. -/
def SendInv (a b : List Nat) (s : SState) : Prop :=
  (s.lock = none ∧
    ((s.phA = .idle (sendChunks a) ∧ s.phB = .idle (sendChunks b) ∧ s.out = []) ∨
     (s.phA = .done ∧ s.phB = .idle (sendChunks b) ∧ s.out = lspEncode a) ∨
     (s.phA = .idle (sendChunks a) ∧ s.phB = .done ∧ s.out = lspEncode b) ∨
     (s.phA = .done ∧ s.phB = .done ∧
       (s.out = lspEncode a ++ lspEncode b ∨ s.out = lspEncode b ++ lspEncode a)))) ∨
  (s.lock = some false ∧
    ∃ cs w, s.phA = .writing cs ∧ w ++ cs.flatten = lspEncode a ∧
      ((s.phB = .idle (sendChunks b) ∧ s.out = w) ∨
       (s.phB = .done ∧ s.out = lspEncode b ++ w))) ∨
  (s.lock = some true ∧
    ∃ cs w, s.phB = .writing cs ∧ w ++ cs.flatten = lspEncode b ∧
      ((s.phA = .idle (sendChunks a) ∧ s.out = w) ∨
       (s.phA = .done ∧ s.out = lspEncode a ++ w)))

/-! ## Basic lemmas -/

theorem mem_of_getLastEq {l : List Nat} {a : Nat} (h : l.getLast? = some a) : a ∈ l := by
  cases l with
  | nil => simp at h
  | cons x xs =>
    rw [List.getLast?_eq_getLast _ (by simp)] at h
    obtain rfl : (x :: xs).getLast (by simp) = a := by injection h
    exact List.getLast_mem _

theorem readLine_append (l r : List Nat) (h : 10 ∉ l) :
    readLine (l ++ 10 :: r) = (l ++ [10], r) := by
  induction l with
  | nil => simp [readLine]
  | cons b bs ih =>
    have hb : b ≠ 10 := fun hb => h (by simp [hb])
    have hbs : 10 ∉ bs := fun hm => h (by simp [hm])
    simp [readLine, hb, ih hbs]

theorem readLine_no_nl (l : List Nat) (h : 10 ∉ l) : readLine l = (l, []) := by
  induction l with
  | nil => rfl
  | cons b bs ih =>
    have hb : b ≠ 10 := fun hb => h (by simp [hb])
    have hbs : 10 ∉ bs := fun hm => h (by simp [hm])
    simp [readLine, hb, ih hbs]

theorem readLine_split (s : List Nat) : (readLine s).1 ++ (readLine s).2 = s := by
  induction s with
  | nil => rfl
  | cons b bs ih =>
    by_cases hb : b = 10
    · simp [readLine, hb]
    · simp [readLine, hb, ih]

theorem readLine_fst_ne_nil (s : List Nat) (h : s ≠ []) : (readLine s).1 ≠ [] := by
  cases s with
  | nil => exact absurd rfl h
  | cons b bs =>
    by_cases hb : b = 10 <;> simp [readLine, hb]

theorem readLine_snd_lt (s : List Nat) (h : s ≠ []) : (readLine s).2.length < s.length := by
  have hsplit := readLine_split s
  have hne := readLine_fst_ne_nil s h
  have : (readLine s).1.length + (readLine s).2.length = s.length := by
    rw [← List.length_append, hsplit]
  have hpos : 0 < (readLine s).1.length := List.length_pos.mpr hne
  omega

theorem allAscii_iff (l : List Nat) : allAscii l = true ↔ ∀ b ∈ l, b < 128 := by
  simp [allAscii, List.all_eq_true]

theorem utf8ValidF_of_ascii :
    ∀ (f : Nat) (l : List Nat), l.length < f → (∀ b ∈ l, b < 128) → utf8ValidF f l = true := by
  intro f
  induction f with
  | zero => intro l hl; omega
  | succ f ih =>
    intro l hl h
    cases l with
    | nil => rfl
    | cons b r =>
      have hb : b ≤ 127 := by have := h b (by simp); omega
      have hk : utf8SeqLen b = 1 := by simp [utf8SeqLen, hb]
      have hr : ∀ x ∈ r, x < 128 := fun x hx => h x (by simp [hx])
      simp only [utf8ValidF, hk]
      norm_num
      exact ih r (by simp at hl; omega) hr

theorem utf8Valid_of_ascii (l : List Nat) (h : ∀ b ∈ l, b < 128) : utf8Valid l = true :=
  utf8ValidF_of_ascii (l.length + 1) l (by omega) h

theorem goodConts_le_length (b : Nat) (cs : List Nat) : goodConts b cs ≤ cs.length := by
  cases cs with
  | nil => simp [goodConts]
  | cons c rest =>
    simp only [goodConts]
    split
    · have : ∀ l2 : List Nat, countCont l2 ≤ l2.length := by
        intro l2
        induction l2 with
        | nil => simp [countCont]
        | cons x xs ihx =>
          simp only [countCont]
          split
          · simp; omega
          · simp
      have := this rest
      simp
      omega
    · simp

theorem lossyF_of_valid :
    ∀ (f : Nat) (l : List Nat), l.length < f → utf8ValidF f l = true → fromUtf8LossyF f l = l := by
  intro f
  induction f with
  | zero => intro l hl; omega
  | succ f ih =>
    intro l hl hv
    cases l with
    | nil => rfl
    | cons b r =>
      simp only [utf8ValidF] at hv
      simp only [fromUtf8LossyF]
      by_cases hk : utf8SeqLen b = 0
      · simp [hk] at hv
      · rw [if_neg hk] at hv ⊢
        by_cases hg : min (goodConts b r) (utf8SeqLen b - 1) = utf8SeqLen b - 1
        · rw [if_pos hg] at hv ⊢
          have hrec := ih (r.drop (utf8SeqLen b - 1))
            (by simp at hl ⊢; omega) hv
          rw [hg, hrec]
          have htd : r.take (utf8SeqLen b - 1) ++ r.drop (utf8SeqLen b - 1) = r :=
            List.take_append_drop _ r
          rw [List.cons_append, htd]
        · rw [if_neg hg] at hv
          exact absurd hv (by simp)

theorem lossy_of_valid (l : List Nat) (h : utf8Valid l = true) : fromUtf8Lossy l = l :=
  lossyF_of_valid (l.length + 1) l (by omega) h

/-! ## Decimal rendering and parsing -/

theorem natDecimalAux_digits :
    ∀ (f n : Nat), ∀ b ∈ natDecimalAux f n, 48 ≤ b ∧ b ≤ 57 := by
  intro f
  induction f with
  | zero => intro n b hb; simp [natDecimalAux] at hb
  | succ f ih =>
    intro n b hb
    simp only [natDecimalAux] at hb
    split at hb
    · simp at hb
    · rw [List.mem_append] at hb
      rcases hb with h1 | h2
      · exact ih _ b h1
      · simp at h2
        have : n % 10 < 10 := Nat.mod_lt _ (by omega)
        omega

theorem natDecimal_digits (n : Nat) : ∀ b ∈ natDecimal n, 48 ≤ b ∧ b ≤ 57 := by
  intro b hb
  unfold natDecimal at hb
  split at hb
  · simp at hb; omega
  · exact natDecimalAux_digits _ _ b hb

theorem natDecimalAux_zero (f : Nat) : natDecimalAux f 0 = [] := by
  cases f <;> rfl

theorem natDecimal_ne_nil (n : Nat) : natDecimal n ≠ [] := by
  unfold natDecimal
  split
  · simp
  · next hn =>
    simp only [natDecimalAux]
    rw [if_neg hn]
    simp

theorem foldl_natDecimalAux :
    ∀ (f n a : Nat), n < f →
      List.foldl (fun acc b => acc * 10 + (b - 48)) a (natDecimalAux f n) =
        if n = 0 then a else a * 10 ^ (natDecimalAux f n).length + n := by
  intro f
  induction f with
  | zero => intro n a h; omega
  | succ f ih =>
    intro n a h
    by_cases hn : n = 0
    · simp [natDecimalAux, hn]
    · have hstep : natDecimalAux (f + 1) n = natDecimalAux f (n / 10) ++ [n % 10 + 48] := by
        simp only [natDecimalAux]
        rw [if_neg hn]
      rw [hstep, if_neg hn, List.foldl_append]
      simp only [List.foldl_cons, List.foldl_nil]
      have h10 : n / 10 < f := by omega
      rw [ih (n / 10) a h10]
      by_cases h0 : n / 10 = 0
      · rw [if_pos h0, h0, natDecimalAux_zero]
        simp only [List.nil_append, List.length_cons, List.length_nil]
        have : n % 10 = n := by omega
        simp [this]
      · rw [if_neg h0]
        simp only [List.length_append, List.length_cons, List.length_nil]
        have hsub : n % 10 + 48 - 48 = n % 10 := by omega
        rw [hsub]
        calc (a * 10 ^ (natDecimalAux f (n / 10)).length + n / 10) * 10 + n % 10
            = a * (10 ^ (natDecimalAux f (n / 10)).length * 10) + (10 * (n / 10) + n % 10) := by
              ring
          _ = a * 10 ^ ((natDecimalAux f (n / 10)).length + 0 + 1) + n := by
              rw [Nat.div_add_mod n 10, ← pow_succ]

theorem digitsVal_natDecimal (n : Nat) : digitsVal (natDecimal n) = n := by
  unfold digitsVal natDecimal
  split
  · next hn => subst hn; rfl
  · next hn =>
    rw [foldl_natDecimalAux (n + 1) n 0 (by omega), if_neg hn]
    simp

theorem parseUsize_natDecimal (n : Nat) (h : n < 2 ^ 64) :
    parseUsize (natDecimal n) = some n := by
  have hd := natDecimal_digits n
  have hne := natDecimal_ne_nil n
  have hhead : ¬((natDecimal n).head? = some 43) := by
    cases hl : natDecimal n with
    | nil => exact absurd hl hne
    | cons x xs =>
      have hx := hd x (by rw [hl]; simp)
      simp
      omega
  have hall : (natDecimal n).all isDigitB = true := by
    rw [List.all_eq_true]
    intro b hb
    have := hd b hb
    simp [isDigitB]
    omega
  simp only [parseUsize]
  rw [if_neg hhead, if_pos ⟨hne, hall⟩, digitsVal_natDecimal, if_pos h]

/-! ## Trimming and header recognition -/

theorem wsB_false_of_digit {b : Nat} (h : isDigitB b = true) : isWsB b = false := by
  simp [isDigitB] at h
  simp [isWsB]
  omega

theorem clKey_eq :
    clKey = [67, 111, 110, 116, 101, 110, 116, 45, 76, 101, 110, 103, 116, 104, 58, 32] := by
  decide

theorem trimAscii_keyline (d : List Nat) (hne : d ≠ []) (hd : ∀ b ∈ d, isDigitB b = true) :
    trimAscii (clKey ++ (d ++ [13, 10])) = clKey ++ d := by
  have hds : List.dropWhile isWsB (clKey ++ (d ++ [13, 10])) = clKey ++ (d ++ [13, 10]) := by
    rw [clKey_eq]
    simp only [List.cons_append]
    rw [List.dropWhile_cons_of_neg (by decide)]
  obtain ⟨e, tl, hrev⟩ : ∃ e tl, d.reverse = e :: tl := by
    cases hr : d.reverse with
    | nil => exact absurd (List.reverse_eq_nil_iff.mp hr) hne
    | cons e tl => exact ⟨e, tl, rfl⟩
  have he : isWsB e = false := by
    apply wsB_false_of_digit
    apply hd
    rw [← List.mem_reverse, hrev]
    exact List.mem_cons_self _ _
  unfold trimAscii
  rw [hds]
  have hrw : (clKey ++ (d ++ [13, 10])).reverse = 10 :: 13 :: (d.reverse ++ clKey.reverse) := by
    simp [List.reverse_append]
  rw [hrw, hrev]
  rw [List.dropWhile_cons_of_pos (by decide), List.dropWhile_cons_of_pos (by decide)]
  rw [List.cons_append, List.dropWhile_cons_of_neg (by simp [he])]
  rw [← List.cons_append, ← hrev]
  simp [List.reverse_append]

theorem headerValue_key (d : List Nat) : headerValue (clKey ++ d) = some d := by
  unfold headerValue
  rw [if_pos (by rw [List.isPrefixOf_iff_prefix]; exact List.prefix_append _ _)]
  rw [List.drop_left]

theorem lineCl_key (d : List Nat) (cl : Nat) :
    lineCl (clKey ++ d) cl = (parseUsize d).getD 0 := by
  unfold lineCl
  rw [headerValue_key]

/-! ## The LengthPrefixed header loop -/

theorem lpReadHeadersF_line (f : Nat) (l rest : List Nat) (cl : Nat) (h10 : 10 ∉ l)
    (hv : utf8Valid (mkLine l) = true) :
    lpReadHeadersF (f + 1) (mkLine l ++ rest) cl =
      if trimAscii (mkLine l) = [] then some (cl, rest)
      else lpReadHeadersF f rest (lineCl (trimAscii (mkLine l)) cl) := by
  have hsh : mkLine l ++ rest = l ++ (10 :: rest) := by simp [mkLine]
  have hrl : readLine (l ++ (10 :: rest)) = (l ++ [10], rest) := readLine_append l rest h10
  obtain ⟨b, r, hbr⟩ : ∃ b r, l ++ (10 :: rest) = b :: r := by
    cases l with
    | nil => exact ⟨10, rest, rfl⟩
    | cons x xs => exact ⟨x, xs ++ (10 :: rest), rfl⟩
  rw [hsh, hbr]
  simp only [lpReadHeadersF]
  rw [← hbr, hrl]
  dsimp only
  have hml : mkLine l = l ++ [10] := rfl
  rw [← hml]
  rw [if_pos hv]

theorem utf8Valid_mkLine_of_ascii (l : List Nat) (h : allAscii l = true) :
    utf8Valid (mkLine l) = true := by
  apply utf8Valid_of_ascii
  intro b hb
  rw [mkLine, List.mem_append] at hb
  rcases hb with h1 | h2
  · exact (allAscii_iff l).mp h b h1
  · simp at h2; omega

theorem lpReadHeadersF_snd_lt :
    ∀ (f : Nat) (s : List Nat) (cl : Nat) (res : Nat × List Nat),
      lpReadHeadersF f s cl = some res → res.2.length < s.length := by
  intro f
  induction f with
  | zero => intro s cl res h; simp [lpReadHeadersF] at h
  | succ f ih =>
    intro s cl res h
    cases s with
    | nil => simp [lpReadHeadersF] at h
    | cons b r =>
      simp only [lpReadHeadersF] at h
      by_cases hv : utf8Valid (readLine (b :: r)).1 = true
      · rw [if_pos hv] at h
        by_cases ht : trimAscii (readLine (b :: r)).1 = []
        · rw [if_pos ht] at h
          obtain rfl : res = (cl, (readLine (b :: r)).2) := (Option.some.inj h).symm
          exact readLine_snd_lt _ (by simp)
        · rw [if_neg ht] at h
          have h1 := ih _ _ _ h
          have h2 := readLine_snd_lt (b :: r) (by simp)
          omega
      · rw [if_neg hv] at h
        exact absurd h (by simp)

theorem lpDecodeF_nil (f : Nat) : lpDecodeF f [] = [] := by
  cases f <;> rfl

theorem lpDecodeF_congr :
    ∀ (f1 f2 : Nat) (s : List Nat), s.length < f1 → s.length < f2 →
      lpDecodeF f1 s = lpDecodeF f2 s := by
  intro f1
  induction f1 with
  | zero => intro f2 s h1 h2; omega
  | succ f1 ih =>
    intro f2 s h1 h2
    cases f2 with
    | zero => omega
    | succ f2 =>
      simp only [lpDecodeF]
      rcases hh : lpReadHeadersF (s.length + 1) s 0 with _ | ⟨cl, rest⟩
      · rfl
      · have hlt : rest.length < s.length := lpReadHeadersF_snd_lt _ _ _ _ hh
        dsimp only
        by_cases hcl : cl = 0
        · rw [if_pos hcl, if_pos hcl]
          exact ih f2 rest (by omega) (by omega)
        · rw [if_neg hcl, if_neg hcl]
          by_cases hb : rest.length < cl
          · rw [if_pos hb, if_pos hb]
          · rw [if_neg hb, if_neg hb]
            have hdl : (rest.drop cl).length ≤ rest.length := by simp
            rw [ih f2 (rest.drop cl) (by omega) (by omega)]

theorem length_le_flatten_mkLine (ls : List (List Nat)) :
    ls.length ≤ ((ls.map mkLine).flatten).length := by
  induction ls with
  | nil => simp
  | cons l ls ih =>
    simp only [List.map_cons, List.flatten_cons, List.length_append, List.length_cons]
    have : (mkLine l).length = l.length + 1 := by simp [mkLine]
    omega

theorem lpReadHeadersF_block :
    ∀ (ls : List (List Nat)) (f : Nat) (cb rest : List Nat),
      (∀ l ∈ ls, 10 ∉ l ∧ allAscii l = true ∧ trimAscii (mkLine l) ≠ [] ∧
        lineSetsNoLength (trimAscii (mkLine l)) = true) →
      10 ∉ cb → allAscii cb = true → trimAscii (mkLine cb) = [] →
      ls.length < f →
      lpReadHeadersF f ((ls.map mkLine).flatten ++ (mkLine cb ++ rest)) 0 = some (0, rest) := by
  intro ls
  induction ls with
  | nil =>
    intro f cb rest _ h10 hascii htrim hf
    cases f with
    | zero => omega
    | succ f =>
      simp only [List.map_nil, List.flatten_nil, List.nil_append]
      rw [lpReadHeadersF_line f cb rest 0 h10 (utf8Valid_mkLine_of_ascii cb hascii)]
      rw [if_pos htrim]
  | cons l ls ih =>
    intro f cb rest hls h10 hascii htrim hf
    cases f with
    | zero => omega
    | succ f =>
      obtain ⟨hl10, hlascii, hltrim, hlnol⟩ := hls l (by simp)
      simp only [List.map_cons, List.flatten_cons, List.append_assoc]
      rw [lpReadHeadersF_line f l _ 0 hl10 (utf8Valid_mkLine_of_ascii l hlascii)]
      rw [if_neg hltrim]
      have hcl : lineCl (trimAscii (mkLine l)) 0 = 0 := by
        unfold lineCl
        unfold lineSetsNoLength at hlnol
        cases hhv : headerValue (trimAscii (mkLine l)) with
        | none => rfl
        | some v =>
          rw [hhv] at hlnol
          simp at hlnol
          exact hlnol
      rw [hcl]
      exact ih f cb rest (fun x hx => hls x (by simp [hx])) h10 hascii htrim
        (by simp at hf ⊢; omega)

theorem lpReadHeadersF_good (f : Nat) (n : Nat) (body : List Nat) (hn : n < 2 ^ 64) :
    lpReadHeadersF (f + 2) (lspHeaderN n ++ body) 0 = some (n, body) := by
  have hd := natDecimal_digits n
  have hshape : lspHeaderN n ++ body =
      mkLine (clKey ++ natDecimal n ++ [13]) ++ (mkLine [13] ++ body) := by
    simp [lspHeaderN, mkLine]
  have h10 : 10 ∉ clKey ++ natDecimal n ++ [13] := by
    intro hmem
    rw [List.append_assoc, List.mem_append] at hmem
    rcases hmem with h1 | h2
    · rw [clKey_eq] at h1
      simp at h1
    · rw [List.mem_append] at h2
      rcases h2 with h3 | h4
      · have := hd 10 h3; omega
      · simp at h4
  have hasc : allAscii (clKey ++ natDecimal n ++ [13]) = true := by
    rw [allAscii_iff]
    intro b hb
    rw [List.append_assoc, List.mem_append] at hb
    rcases hb with h1 | h2
    · rw [clKey_eq] at h1
      fin_cases h1 <;> omega
    · rw [List.mem_append] at h2
      rcases h2 with h3 | h4
      · have := hd b h3; omega
      · simp at h4; omega
  have htrim : trimAscii (mkLine (clKey ++ natDecimal n ++ [13])) = clKey ++ natDecimal n := by
    have hsh2 : mkLine (clKey ++ natDecimal n ++ [13]) =
        clKey ++ (natDecimal n ++ [13, 10]) := by
      simp [mkLine]
    rw [hsh2]
    exact trimAscii_keyline (natDecimal n) (natDecimal_ne_nil n)
      (fun b hb => by have := hd b hb; simp [isDigitB]; omega)
  rw [hshape, lpReadHeadersF_line (f + 1) _ _ 0 h10
    (utf8Valid_mkLine_of_ascii _ hasc), htrim]
  rw [if_neg (by rw [clKey_eq]; simp)]
  rw [lineCl_key, parseUsize_natDecimal n hn]
  rw [lpReadHeadersF_line f [13] body _ (by decide)
    (by decide)]
  rw [if_pos (by decide)]
  rfl

/-! ## Claim C1 -/

/-- Claim C1: when the LengthPrefixed decoder meets a header block
whose length field is missing, zero, or not a valid non-negative
integer, it skips that unit without emitting a frame and goes on
decoding the rest of the stream (first conjunct: a block of ASCII
header lines none of which establishes a positive length, followed by a
blank line, decodes exactly like the stream after it); when the body of
a unit is truncated (fewer bytes remain than the header announced,
which can only happen at end of stream), no frame is emitted (second
conjunct).  The decode loop is a total function, so it cannot crash. -/
theorem C1_lengthPrefixed_malformed_recovery :
    (∀ (ls : List (List Nat)) (cb rest : List Nat),
      (∀ l ∈ ls, 10 ∉ l ∧ allAscii l = true ∧ trimAscii (mkLine l) ≠ [] ∧
        lineSetsNoLength (trimAscii (mkLine l)) = true) →
      10 ∉ cb → allAscii cb = true → trimAscii (mkLine cb) = [] →
      lpDecode ((ls.map mkLine).flatten ++ (mkLine cb ++ rest)) = lpDecode rest) ∧
    (∀ (n : Nat) (body : List Nat), 0 < n → n < 2 ^ 64 → body.length < n →
      lpDecode (lspHeaderN n ++ body) = []) := by
  constructor
  · intro ls cb rest hls h10 hascii htrim
    have hflat := length_le_flatten_mkLine ls
    have hfuel :
        ls.length < ((ls.map mkLine).flatten ++ (mkLine cb ++ rest)).length + 1 := by
      simp only [List.length_append]
      omega
    calc lpDecode ((ls.map mkLine).flatten ++ (mkLine cb ++ rest))
        = lpDecodeF (((ls.map mkLine).flatten ++ (mkLine cb ++ rest)).length + 1)
            ((ls.map mkLine).flatten ++ (mkLine cb ++ rest)) := rfl
      _ = lpDecodeF (((ls.map mkLine).flatten ++ (mkLine cb ++ rest)).length) rest := by
          simp only [lpDecodeF]
          rw [lpReadHeadersF_block ls _ cb rest hls h10 hascii htrim hfuel]
          dsimp only
          rw [if_pos rfl]
      _ = lpDecodeF (rest.length + 1) rest := by
          apply lpDecodeF_congr
          · simp only [List.length_append]
            have : (mkLine cb).length = cb.length + 1 := by simp [mkLine]
            omega
          · omega
      _ = lpDecode rest := rfl
  · intro n body hn0 hn64 hlen
    have h1 : 1 ≤ (lspHeaderN n ++ body).length := by
      simp [lspHeaderN, clKey_eq]
    obtain ⟨g, hg⟩ : ∃ g, (lspHeaderN n ++ body).length + 1 = g + 2 :=
      ⟨(lspHeaderN n ++ body).length - 1, by omega⟩
    calc lpDecode (lspHeaderN n ++ body)
        = lpDecodeF ((lspHeaderN n ++ body).length + 1) (lspHeaderN n ++ body) := rfl
      _ = [] := by
          rw [hg]
          simp only [lpDecodeF]
          rw [hg, lpReadHeadersF_good g n body hn64]
          dsimp only
          rw [if_neg (by omega), if_pos hlen]

/-- Witness for C1: a header block `X: y` (no length field) followed by
a blank line is skipped and decoding continues with the following valid
unit; a `Content-Length: 5` header followed by only two bytes of body
produces no frame. -/
theorem C1_lengthPrefixed_malformed_recovery_witness :
    trimAscii (mkLine [13]) = [] ∧
    lpDecode ((([[88, 58, 32, 121, 13]] : List (List Nat)).map mkLine).flatten ++
      (mkLine [13] ++ lspEncode [104])) = lpDecode (lspEncode [104]) ∧
    lpDecode (lspHeaderN 5 ++ [1, 2]) = [] :=
  ⟨by decide,
   C1_lengthPrefixed_malformed_recovery.1 [[88, 58, 32, 121, 13]] [13] (lspEncode [104])
     (by decide) (by decide) (by decide) (by decide),
   C1_lengthPrefixed_malformed_recovery.2 5 [1, 2] (by decide) (by norm_num) (by decide)⟩

/-! ## Claim C2 -/

/-- Claim C2 counterexample: the round trip fails for the empty
message.  `lsp_send` of an empty payload emits `Content-Length: 0`
followed by the blank line and no body, and the decoder skips a
zero-length unit without emitting any frame, so decoding the encoder's
output yields no message instead of the empty message. -/
theorem C2_empty_message_counterexample :
    lpDecode (lspEncode []) = [] ∧ lpDecode (lspEncode []) ≠ [[]] :=
  ⟨by decide, by decide⟩

/-- Claim C2 (amended): for every non-empty message (a valid UTF-8 byte
sequence, as any Rust string is, with byte length in `usize` range),
encoding with the LengthPrefixed encoder and decoding the emitted bytes
yields exactly that one message; the empty message is the only
exception (its zero-length unit is skipped by the decoder). -/
theorem C2_lengthPrefixed_roundtrip_nonempty (m : List Nat) (h1 : m ≠ [])
    (h2 : utf8Valid m = true) (h3 : m.length < 2 ^ 64) :
    lpDecode (lspEncode m) = [m] := by
  have hlen1 : 1 ≤ (lspEncode m).length := by
    simp [lspEncode, lspHeader, lspHeaderN, clKey_eq]
  obtain ⟨g, hg⟩ : ∃ g, (lspEncode m).length + 1 = g + 2 :=
    ⟨(lspEncode m).length - 1, by omega⟩
  calc lpDecode (lspEncode m)
      = lpDecodeF ((lspEncode m).length + 1) (lspEncode m) := rfl
    _ = [m] := by
        rw [hg]
        simp only [lpDecodeF]
        rw [hg]
        have henc : lspEncode m = lspHeaderN m.length ++ m := rfl
        rw [henc, lpReadHeadersF_good g m.length m h3]
        dsimp only
        rw [if_neg (fun hc => h1 (List.length_eq_zero.mp hc))]
        rw [if_neg (by omega)]
        rw [List.take_length, List.drop_length, lossy_of_valid m h2]
        rfl

/-- Witness for C2: the two-byte message `hi` survives the round trip. -/
theorem C2_lengthPrefixed_roundtrip_nonempty_witness :
    ([104, 105] : List Nat) ≠ [] ∧ utf8Valid [104, 105] = true ∧
    lpDecode (lspEncode [104, 105]) = [[104, 105]] :=
  ⟨by decide, by decide,
   C2_lengthPrefixed_roundtrip_nonempty [104, 105] (by decide) (by decide) (by norm_num)⟩

/-! ## Claim C5 -/

theorem stripNL_mkLine (c : List Nat) : stripNL (mkLine c) = stripCRContent c := by
  unfold stripNL stripCRContent mkLine
  simp [List.getLast?_concat, List.dropLast_concat]

theorem stripNL_no_nl (p : List Nat) (h : 10 ∉ p) : stripNL p = p := by
  unfold stripNL
  rw [if_neg]
  intro hc
  exact h (mem_of_getLastEq hc)

theorem lineDecodeF_nil (f : Nat) : lineDecodeF f [] = [] := by
  cases f <;> rfl

theorem lineDecodeF_line (f : Nat) (c rest : List Nat) (h10 : 10 ∉ c)
    (hv : utf8Valid (mkLine c) = true) :
    lineDecodeF (f + 1) (mkLine c ++ rest) = stripNL (mkLine c) :: lineDecodeF f rest := by
  have hsh : mkLine c ++ rest = c ++ (10 :: rest) := by simp [mkLine]
  have hrl : readLine (c ++ (10 :: rest)) = (c ++ [10], rest) := readLine_append c rest h10
  obtain ⟨b, r, hbr⟩ : ∃ b r, c ++ (10 :: rest) = b :: r := by
    cases c with
    | nil => exact ⟨10, rest, rfl⟩
    | cons x xs => exact ⟨x, xs ++ (10 :: rest), rfl⟩
  rw [hsh, hbr]
  simp only [lineDecodeF]
  rw [← hbr, hrl]
  dsimp only
  have hml : mkLine c = c ++ [10] := rfl
  rw [← hml]
  rw [if_pos hv]

theorem lineDecodeF_blocks :
    ∀ (ls : List (List Nat)) (f : Nat) (p : List Nat),
      (∀ c ∈ ls, 10 ∉ c ∧ utf8Valid (mkLine c) = true) →
      10 ∉ p → utf8Valid p = true → ls.length < f →
      lineDecodeF f ((ls.map mkLine).flatten ++ p) =
        ls.map stripCRContent ++ (if p = [] then [] else [p]) := by
  intro ls
  induction ls with
  | nil =>
    intro f p _ hp10 hpv hf
    cases f with
    | zero => omega
    | succ f =>
      simp only [List.map_nil, List.flatten_nil, List.nil_append]
      cases p with
      | nil => rw [lineDecodeF_nil]; simp
      | cons b r =>
        simp only [lineDecodeF]
        rw [readLine_no_nl (b :: r) hp10]
        dsimp only
        rw [if_pos hpv, stripNL_no_nl _ hp10, lineDecodeF_nil]
        simp
  | cons c ls ih =>
    intro f p hls hp10 hpv hf
    cases f with
    | zero => omega
    | succ f =>
      obtain ⟨hc10, hcv⟩ := hls c (by simp)
      simp only [List.map_cons, List.flatten_cons, List.append_assoc]
      rw [lineDecodeF_line f c _ hc10 hcv, stripNL_mkLine]
      rw [ih f p (fun x hx => hls x (by simp [hx])) hp10 hpv (by simp at hf ⊢; omega)]
      simp

/-- Claim C5 counterexample: on the one-byte stream `a` with no
trailing newline, the stderr loop emits the frame `a` for the final
partial line (Rust `BufRead::lines` yields the remainder before
reporting end of stream), contradicting the claim that no frame is
emitted for it. -/
theorem C5_partial_line_counterexample :
    lineDecode [97] = [[97]] ∧ lineDecode [97] ≠ [] :=
  ⟨by decide, by decide⟩

/-- Claim C5 (amended): every newline-terminated line yields exactly
one frame, in order, with the newline and a carriage return preceding
it stripped; but a nonempty final partial line at end of stream is also
emitted, verbatim, as one frame — `BufRead::lines` yields the partial
remainder rather than discarding it. -/
theorem C5_lineDelimited_frames (ls : List (List Nat)) (p : List Nat)
    (hls : ∀ c ∈ ls, 10 ∉ c ∧ utf8Valid (mkLine c) = true)
    (hp10 : 10 ∉ p) (hpv : utf8Valid p = true) :
    lineDecode ((ls.map mkLine).flatten ++ p) =
      ls.map stripCRContent ++ (if p = [] then [] else [p]) := by
  unfold lineDecode
  apply lineDecodeF_blocks ls _ p hls hp10 hpv
  have h1 := length_le_flatten_mkLine ls
  simp only [List.length_append]
  omega

/-- Witness for C5: the stream `a` LF `b` decodes to the frame `a` (for
the newline-terminated line) followed by the frame `b` (for the final
partial line). -/
theorem C5_lineDelimited_frames_witness :
    (10 ∉ ([98] : List Nat)) ∧ lineDecode [97, 10, 98] = [[97], [98]] := by
  refine ⟨by decide, ?_⟩
  have h := C5_lineDelimited_frames [[97]] [98] (by decide) (by decide) (by decide)
  simpa using h

/-! ## Claim C3 -/

/-- Claim C3 counterexample: `spawn_terminal` performs no duplicate-id
check.  With a session already registered under id `t`, a second
registration under `t` succeeds (returns `Ok`) and replaces the
existing entry, instead of failing with AlreadyExists and leaving the
first session untouched. -/
theorem C3_terminal_duplicate_counterexample :
    containsKey [("t", (0 : Nat))] "t" = true ∧
    spawn_terminal [("t", (0 : Nat))] "t" 1 = (.ok (), [("t", 1)]) :=
  ⟨by decide, rfl⟩

/-- Claim C3 (amended): with an id already present, `lsp_start` fails
with the already-running error, leaves the registry untouched and does
not reach the spawn step; `spawn_terminal`, however, has no
duplicate-id check: the second registration succeeds and the new
session replaces the first under that id. -/
theorem C3_duplicate_id {α : Type} (m : RegMap α) (id : String) (s1 s : α)
    (h : regLookup m id = some s1) :
    lsp_start m id s = (.error ("Server " ++ id ++ " already running"), m, false) ∧
    (spawn_terminal m id s).1 = .ok () ∧
    regLookup (spawn_terminal m id s).2 id = some s := by
  refine ⟨?_, rfl, ?_⟩
  · unfold lsp_start
    rw [if_pos]
    unfold containsKey
    rw [h]
    rfl
  · unfold spawn_terminal regLookup regInsert
    dsimp only
    rw [List.find?_cons_of_pos _ (by simp)]
    rfl

/-- Witness for C3 at a concrete registry. -/
theorem C3_duplicate_id_witness :
    regLookup [("a", (0 : Nat))] "a" = some 0 ∧
    lsp_start [("a", (0 : Nat))] "a" 1 =
      (.error ("Server " ++ "a" ++ " already running"), [("a", 0)], false) ∧
    (spawn_terminal [("a", (0 : Nat))] "a" 1).1 = .ok () ∧
    regLookup (spawn_terminal [("a", (0 : Nat))] "a" 1).2 "a" = some 1 := by
  have h := C3_duplicate_id [("a", (0 : Nat))] "a" 0 1 (by decide)
  exact ⟨by decide, h.1, h.2.1, h.2.2⟩

/-! ## Claim C4 -/

/-- Claim C4 counterexample: `write_to_terminal` on an id absent from
the registry silently succeeds (returns `Ok` and writes nothing)
instead of returning a NotFound error. -/
theorem C4_terminal_silent_counterexample :
    (write_to_terminal ([] : RegMap Nat) "x" [65]).1 = .ok () ∧
    (write_to_terminal ([] : RegMap Nat) "x" [65]).2 = [] :=
  ⟨rfl, rfl⟩

/-- Claim C4 (amended): on an id absent from the registry, `lsp_send`
returns the not-found error and writes nothing, and the registry is
only read; `write_to_terminal`, however, silently returns `Ok` (also
writing nothing) — it does not report NotFound. -/
theorem C4_send_unknown_id {α : Type} (m : RegMap α) (id : String) (msg : List Nat)
    (h : regLookup m id = none) :
    lsp_send m id msg = (.error ("Server " ++ id ++ " not found"), []) ∧
    write_to_terminal m id msg = (.ok (), []) := by
  unfold lsp_send write_to_terminal
  rw [h]
  exact ⟨rfl, rfl⟩

/-- Witness for C4 at the empty registry. -/
theorem C4_send_unknown_id_witness :
    regLookup ([] : RegMap Nat) "x" = none ∧
    lsp_send ([] : RegMap Nat) "x" [104] = (.error ("Server " ++ "x" ++ " not found"), []) ∧
    write_to_terminal ([] : RegMap Nat) "x" [104] = (.ok (), []) := by
  have h := C4_send_unknown_id ([] : RegMap Nat) "x" [104] rfl
  exact ⟨rfl, h.1, h.2⟩

/-! ## Claim C6 -/

/-- Claim C6: when the bounded run's race resolves with process exit
first, `exec_background_cmd` returns status `completed`, the exit code
reported by the wait, and the (lossy-decoded) snapshots of the two
output buffers, and the process registry is returned unchanged — no
entry is inserted. -/
theorem C6_completed_before_timeout (procs : RegMap BgProc) (pid : String) (st : ExitSt)
    (ob eb : List Nat) :
    exec_background_cmd procs pid (.exited (.ok st)) ob eb =
      (.ok ⟨"completed", some pid, fromUtf8Lossy ob, fromUtf8Lossy eb, st.code⟩, procs) := rfl

/-! ## Claim C7 -/

/-- Claim C7: when the timeout elapses first, `exec_background_cmd`
registers the still-running session (child handle present, not
finished, no exit code) under the generated id and returns status
`running` with no exit code and the partial snapshots (first
conjunct); a later `check_background_cmd` on that id that finds the
entry unfinished, with its child handle, and whose `try_wait` reports
an exit, marks the entry finished and returns status `completed` with
the full accumulated buffers and the exit code (second conjunct). -/
theorem C7_timeout_registers_then_check :
    (∀ (procs : RegMap BgProc) (pid : String) (ob eb : List Nat),
      exec_background_cmd procs pid .timedOut ob eb =
        (.ok ⟨"running", some pid, fromUtf8Lossy ob, fromUtf8Lossy eb, none⟩,
         regInsert procs pid ⟨some (), ob, eb, false, none⟩)) ∧
    (∀ (procs : RegMap BgProc) (pid : String) (e : BgProc) (st : ExitSt),
      regLookup procs pid = some e → e.isFinished = false → e.child = some () →
      check_background_cmd procs pid (.exited st) =
        (.ok ⟨"completed", some pid, fromUtf8Lossy e.stdoutBuf, fromUtf8Lossy e.stderrBuf,
          st.code⟩,
         regInsert procs pid ⟨e.child, e.stdoutBuf, e.stderrBuf, true, st.code⟩)) := by
  refine ⟨fun procs pid ob eb => rfl, ?_⟩
  intro procs pid e st hl hfin hc
  unfold check_background_cmd
  rw [hl]
  dsimp only
  rw [if_neg (by rw [hfin]; simp)]
  rw [hc]

/-- Witness for C7 at a concrete one-entry registry. -/
theorem C7_timeout_registers_then_check_witness :
    regLookup [("p", (⟨some (), [111], [], false, none⟩ : BgProc))] "p" =
      some ⟨some (), [111], [], false, none⟩ ∧
    check_background_cmd [("p", (⟨some (), [111], [], false, none⟩ : BgProc))] "p"
        (.exited ⟨some 0⟩) =
      (.ok ⟨"completed", some "p", fromUtf8Lossy [111], fromUtf8Lossy [], some 0⟩,
       regInsert [("p", (⟨some (), [111], [], false, none⟩ : BgProc))] "p"
         ⟨some (), [111], [], true, some 0⟩) := by
  have h := C7_timeout_registers_then_check.2
    [("p", (⟨some (), [111], [], false, none⟩ : BgProc))] "p"
    ⟨some (), [111], [], false, none⟩ ⟨some 0⟩ (by decide) rfl rfl
  exact ⟨by decide, h⟩

/-! ## Claim C8 -/

/-- Claim C8 counterexample: a read chunk that is not valid UTF-8 is
not forwarded byte-for-byte: the chunk `0xFF` is emitted as the three
UTF-8 bytes of the replacement character, because the reader threads
pass every chunk through `String::from_utf8_lossy`. -/
theorem C8_raw_lossy_counterexample :
    rawReaderLoop [[255]] = [[239, 191, 189]] ∧
    ([[239, 191, 189]] : List (List Nat)) ≠ [[255]] :=
  ⟨by decide, by decide⟩

/-- Claim C8 (amended): the reader loops of the terminal and the
debug-adapter socket forward every nonzero read as exactly one frame,
in order, whose payload is the lossy UTF-8 decoding of the chunk; the
payload is byte-for-byte identical to the chunk exactly when the chunk
is valid UTF-8 (invalid chunks — e.g. a multi-byte character split
across reads — are altered by replacement characters). -/
theorem C8_raw_passthrough (chunks : List (List Nat)) (h : ∀ c ∈ chunks, c ≠ []) :
    rawReaderLoop chunks = chunks.map fromUtf8Lossy ∧
    ∀ c ∈ chunks, utf8Valid c = true → fromUtf8Lossy c = c := by
  constructor
  · induction chunks with
    | nil => rfl
    | cons c cs ih =>
      have hc := h c (by simp)
      simp only [rawReaderLoop, List.map_cons]
      rw [if_neg hc]
      rw [ih (fun x hx => h x (by simp [hx]))]
  · intro c _ hv
    exact lossy_of_valid c hv

/-- Witness for C8 on a single one-byte ASCII chunk. -/
theorem C8_raw_passthrough_witness :
    (([104] : List Nat) ≠ []) ∧
    rawReaderLoop [[104]] = ([[104]] : List (List Nat)).map fromUtf8Lossy :=
  ⟨by decide, (C8_raw_passthrough [[104]] (by decide)).1⟩

/-! ## Claim C10 -/

theorem regInsert_childInv (m : RegMap BgProc) (k : String) (v : BgProc)
    (hm : ChildInv m) (hv : v.child.isSome = true) : ChildInv (regInsert m k v) := by
  intro p hp
  rcases List.mem_cons.mp hp with h1 | h2
  · subst h1; exact hv
  · exact hm p (List.mem_of_mem_filter h2)

/-- Claim C10: every operation on the background-command registry
preserves the invariant that each entry holds a child handle
(insertion stores `Some child`, the check update keeps the handle, kill
removes the whole entry), and under that invariant
`check_background_cmd` can never return the "Invalid process state"
error — that branch is unreachable. -/
theorem C10_child_handle_invariant :
    (∀ (procs : RegMap BgProc) (pid : String) (outcome : RaceOut) (ob eb : List Nat),
      ChildInv procs → ChildInv (exec_background_cmd procs pid outcome ob eb).2) ∧
    (∀ (procs : RegMap BgProc) (pid : String) (tw : TryWaitRes),
      ChildInv procs → ChildInv (check_background_cmd procs pid tw).2) ∧
    (∀ (procs : RegMap BgProc) (pid : String),
      ChildInv procs → ChildInv (kill_background_cmd procs pid).2) ∧
    (∀ (procs : RegMap BgProc) (pid : String) (tw : TryWaitRes),
      ChildInv procs →
      (check_background_cmd procs pid tw).1 ≠ .error "Invalid process state") := by
  refine ⟨?_, ?_, ?_, ?_⟩
  · intro procs pid outcome ob eb h
    cases outcome with
    | exited res => cases res <;> exact h
    | timedOut => exact regInsert_childInv _ _ _ h rfl
  · intro procs pid tw h
    unfold check_background_cmd
    cases hl : regLookup procs pid with
    | none => exact h
    | some proc =>
      dsimp only
      by_cases hf : proc.isFinished = true
      · rw [if_pos hf]; exact h
      · rw [if_neg hf]
        cases hc : proc.child with
        | none => exact h
        | some u =>
          cases tw with
          | exited st =>
            dsimp only
            apply regInsert_childInv _ _ _ h
            simp [hc]
          | stillRunning => exact h
          | waitErr msg => exact h
  · intro procs pid h
    intro p hp
    exact h p (List.mem_of_mem_filter hp)
  · intro procs pid tw h
    unfold check_background_cmd
    cases hl : regLookup procs pid with
    | none =>
      intro hcon
      injection hcon with hs
      exact absurd hs (by decide)
    | some proc =>
      dsimp only
      have hcs : proc.child.isSome = true := by
        obtain ⟨q, hq, hq2⟩ := Option.map_eq_some'.mp hl
        have hmem := List.mem_of_find?_eq_some hq
        rw [← hq2]
        exact h q hmem
      by_cases hf : proc.isFinished = true
      · rw [if_pos hf]
        simp
      · rw [if_neg hf]
        cases hc : proc.child with
        | none => rw [hc] at hcs; simp at hcs
        | some u =>
          cases tw with
          | exited st => simp
          | stillRunning => simp
          | waitErr msg =>
            dsimp only
            intro hcon
            injection hcon with hs
            have hlen := congrArg String.length hs
            rw [String.length_append] at hlen
            have h24 : ("Error checking process: " : String).length = 24 := by decide
            have h21 : ("Invalid process state" : String).length = 21 := by decide
            omega

/-- Witness for C10: at a concrete registry holding one live entry,
the invariant holds and `check_background_cmd` does not return the
invalid-state error. -/
theorem C10_child_handle_invariant_witness :
    ChildInv [("p", (⟨some (), [], [], false, none⟩ : BgProc))] ∧
    (check_background_cmd [("p", (⟨some (), [], [], false, none⟩ : BgProc))] "p"
      .stillRunning).1 ≠ .error "Invalid process state" :=
  ⟨by decide,
   C10_child_handle_invariant.2.2.2 [("p", (⟨some (), [], [], false, none⟩ : BgProc))] "p"
     .stillRunning (by decide)⟩

/-! ## Claim C9 -/

theorem flatten_sendChunks (m : List Nat) : (sendChunks m).flatten = lspEncode m := by
  simp [sendChunks, lspEncode]

theorem sendInv_step (a b : List Nat) (s : SState) (t : Bool) (h : SendInv a b s) :
    SendInv a b (stepT s t) := by
  obtain ⟨lk, pA, pB, o⟩ := s
  dsimp only [SendInv] at h
  rcases h with ⟨hl, hcase⟩ | ⟨hl, cs, w, hph, hflat, hrest⟩ | ⟨hl, cs, w, hph, hflat, hrest⟩
  · subst hl
    rcases hcase with ⟨h1, h2, h3⟩ | ⟨h1, h2, h3⟩ | ⟨h1, h2, h3⟩ | ⟨h1, h2, h3⟩
    · subst h1; subst h2; subst h3
      cases t
      · show SendInv a b ⟨some false, .writing (sendChunks a), .idle (sendChunks b), []⟩
        exact Or.inr (Or.inl ⟨rfl, sendChunks a, [], rfl,
          by rw [List.nil_append, flatten_sendChunks], Or.inl ⟨rfl, rfl⟩⟩)
      · show SendInv a b ⟨some true, .idle (sendChunks a), .writing (sendChunks b), []⟩
        exact Or.inr (Or.inr ⟨rfl, sendChunks b, [], rfl,
          by rw [List.nil_append, flatten_sendChunks], Or.inl ⟨rfl, rfl⟩⟩)
    · subst h1; subst h2; subst h3
      cases t
      · show SendInv a b ⟨none, .done, .idle (sendChunks b), lspEncode a⟩
        exact Or.inl ⟨rfl, Or.inr (Or.inl ⟨rfl, rfl, rfl⟩)⟩
      · show SendInv a b ⟨some true, .done, .writing (sendChunks b), lspEncode a⟩
        exact Or.inr (Or.inr ⟨rfl, sendChunks b, [], rfl,
          by rw [List.nil_append, flatten_sendChunks], Or.inr ⟨rfl, by simp⟩⟩)
    · subst h1; subst h2; subst h3
      cases t
      · show SendInv a b ⟨some false, .writing (sendChunks a), .done, lspEncode b⟩
        exact Or.inr (Or.inl ⟨rfl, sendChunks a, [], rfl,
          by rw [List.nil_append, flatten_sendChunks], Or.inr ⟨rfl, by simp⟩⟩)
      · show SendInv a b ⟨none, .idle (sendChunks a), .done, lspEncode b⟩
        exact Or.inl ⟨rfl, Or.inr (Or.inr (Or.inl ⟨rfl, rfl, rfl⟩))⟩
    · subst h1; subst h2
      cases t
      · show SendInv a b ⟨none, .done, .done, o⟩
        exact Or.inl ⟨rfl, Or.inr (Or.inr (Or.inr ⟨rfl, rfl, h3⟩))⟩
      · show SendInv a b ⟨none, .done, .done, o⟩
        exact Or.inl ⟨rfl, Or.inr (Or.inr (Or.inr ⟨rfl, rfl, h3⟩))⟩
  · subst hl; subst hph
    cases t
    · cases cs with
      | nil =>
        have hw : w = lspEncode a := by simpa using hflat
        show SendInv a b ⟨none, .done, pB, o⟩
        rcases hrest with ⟨hB, ho⟩ | ⟨hB, ho⟩
        · subst hB
          exact Or.inl ⟨rfl, Or.inr (Or.inl ⟨rfl, rfl, by rw [ho, hw]⟩)⟩
        · subst hB
          exact Or.inl ⟨rfl, Or.inr (Or.inr (Or.inr ⟨rfl, rfl, Or.inr (by rw [ho, hw])⟩))⟩
      | cons c cs2 =>
        rw [List.flatten_cons, ← List.append_assoc] at hflat
        show SendInv a b ⟨some false, .writing cs2, pB, o ++ c⟩
        rcases hrest with ⟨hB, ho⟩ | ⟨hB, ho⟩
        · subst hB
          exact Or.inr (Or.inl ⟨rfl, cs2, w ++ c, rfl, hflat, Or.inl ⟨rfl, by rw [ho]⟩⟩)
        · subst hB
          exact Or.inr (Or.inl ⟨rfl, cs2, w ++ c, rfl, hflat,
            Or.inr ⟨rfl, by rw [ho, List.append_assoc]⟩⟩)
    · rcases hrest with ⟨hB, ho⟩ | ⟨hB, ho⟩
      · subst hB
        show SendInv a b ⟨some false, .writing cs, .idle (sendChunks b), o⟩
        exact Or.inr (Or.inl ⟨rfl, cs, w, rfl, hflat, Or.inl ⟨rfl, ho⟩⟩)
      · subst hB
        show SendInv a b ⟨some false, .writing cs, .done, o⟩
        exact Or.inr (Or.inl ⟨rfl, cs, w, rfl, hflat, Or.inr ⟨rfl, ho⟩⟩)
  · subst hl; subst hph
    cases t
    · rcases hrest with ⟨hA, ho⟩ | ⟨hA, ho⟩
      · subst hA
        show SendInv a b ⟨some true, .idle (sendChunks a), .writing cs, o⟩
        exact Or.inr (Or.inr ⟨rfl, cs, w, rfl, hflat, Or.inl ⟨rfl, ho⟩⟩)
      · subst hA
        show SendInv a b ⟨some true, .done, .writing cs, o⟩
        exact Or.inr (Or.inr ⟨rfl, cs, w, rfl, hflat, Or.inr ⟨rfl, ho⟩⟩)
    · cases cs with
      | nil =>
        have hw : w = lspEncode b := by simpa using hflat
        show SendInv a b ⟨none, pA, .done, o⟩
        rcases hrest with ⟨hA, ho⟩ | ⟨hA, ho⟩
        · subst hA
          exact Or.inl ⟨rfl, Or.inr (Or.inr (Or.inl ⟨rfl, rfl, by rw [ho, hw]⟩))⟩
        · subst hA
          exact Or.inl ⟨rfl, Or.inr (Or.inr (Or.inr ⟨rfl, rfl, Or.inl (by rw [ho, hw])⟩))⟩
      | cons c cs2 =>
        rw [List.flatten_cons, ← List.append_assoc] at hflat
        show SendInv a b ⟨some true, pA, .writing cs2, o ++ c⟩
        rcases hrest with ⟨hA, ho⟩ | ⟨hA, ho⟩
        · subst hA
          exact Or.inr (Or.inr ⟨rfl, cs2, w ++ c, rfl, hflat, Or.inl ⟨rfl, by rw [ho]⟩⟩)
        · subst hA
          exact Or.inr (Or.inr ⟨rfl, cs2, w ++ c, rfl, hflat,
            Or.inr ⟨rfl, by rw [ho, List.append_assoc]⟩⟩)

theorem sendInv_run (a b : List Nat) :
    ∀ (sched : List Bool) (s : SState), SendInv a b s → SendInv a b (runSched s sched) := by
  intro sched
  induction sched with
  | nil => intro s h; exact h
  | cons t ts ih =>
    intro s h
    simp only [runSched, List.foldl_cons]
    exact ih (stepT s t) (sendInv_step a b s t h)

/-- Claim C9: two send calls racing for the same session's writer
never interleave their bytes at the endpoint.  In the interleaving
model (each sender acquires the writer mutex, writes its header chunk,
its payload chunk and the byte-free flush, then releases; a sender
whose acquire finds the lock held blocks), every schedule under which
both senders complete leaves the endpoint holding one full emission
followed by the other — never a mix. -/
theorem C9_writer_gate_serializes (a b : List Nat) (sched : List Bool)
    (hA : (runSched (initS a b) sched).phA = .done)
    (hB : (runSched (initS a b) sched).phB = .done) :
    (runSched (initS a b) sched).out = lspEncode a ++ lspEncode b ∨
    (runSched (initS a b) sched).out = lspEncode b ++ lspEncode a := by
  have h0 : SendInv a b (initS a b) := Or.inl ⟨rfl, Or.inl ⟨rfl, rfl, rfl⟩⟩
  have hinv := sendInv_run a b sched (initS a b) h0
  rcases hinv with ⟨hl, hcase⟩ | ⟨hl, cs, w, hph, hflat, hrest⟩ | ⟨hl, cs, w, hph, hflat, hrest⟩
  · rcases hcase with ⟨h1, h2, h3⟩ | ⟨h1, h2, h3⟩ | ⟨h1, h2, h3⟩ | ⟨h1, h2, h3⟩
    · rw [hA] at h1; simp at h1
    · rw [hB] at h2; simp at h2
    · rw [hA] at h1; simp at h1
    · exact h3
  · rw [hA] at hph; simp at hph
  · rw [hB] at hph; simp at hph

/-- Witness for C9: concrete messages `A` and `B` under the schedule
that runs sender A's five steps then sender B's five steps: both finish
and the endpoint holds encode(A) ++ encode(B). -/
theorem C9_writer_gate_serializes_witness :
    (runSched (initS [65] [66])
      [false, false, false, false, false, true, true, true, true, true]).phA = .done ∧
    (runSched (initS [65] [66])
      [false, false, false, false, false, true, true, true, true, true]).phB = .done ∧
    ((runSched (initS [65] [66])
        [false, false, false, false, false, true, true, true, true, true]).out =
      lspEncode [65] ++ lspEncode [66] ∨
     (runSched (initS [65] [66])
        [false, false, false, false, false, true, true, true, true, true]).out =
      lspEncode [66] ++ lspEncode [65]) :=
  ⟨by decide, by decide,
   C9_writer_gate_serializes [65] [66]
     [false, false, false, false, false, true, true, true, true, true]
     (by decide) (by decide)⟩

end Ted
